import Mathlib

/-!
# Verification of the pyMSA column-wise scoring engine

Shallow embedding of `pymsa/core/score.py`.  Aligned sequences are lists of
characters; Python floats are modelled by exact rationals `ℚ`; Python ints by
`ℤ`/`ℕ`; fallible Python code (raised exceptions) is modelled by
`Except PyError`.  The natural logarithm used by `Entropy` is a transcendental
float function, so it is abstracted as a parameter `lg : ℚ → ℚ`; every claim
about `Entropy` concerns the summation policy, which is independent of the
logarithm.  The substitution matrix consumed by `Star` and `SumOfPairs` is an
external collaborator and is abstracted as a function `d : Char → Char → ℤ`.
The `Strike` scorer's filesystem, network and external tool are modelled by an
explicit state record, a network oracle and a tool oracle.
-/

/-- The exceptions the Python code can raise, named after the spec's error
kinds.  `alignmentLengthMismatch` is the `Exception` raised by
`Score.compute`'s validation; `indexError` models Python's `IndexError`;
`zeroDivisionError` models `ZeroDivisionError`; `structureNotFound` is the
`Exception("PDB not found in rcsb")` raised by `Strike.get_pdb`; `urlError`
models an uncaught `urllib.error.URLError` (a transport failure that is not an
`HTTPError`). -/
inductive PyError where
  | alignmentLengthMismatch
  | indexError
  | zeroDivisionError
  | structureNotFound
  | urlError
deriving DecidableEq, Repr

instance {ε α : Type} [DecidableEq ε] [DecidableEq α] : DecidableEq (Except ε α) := by
  intro a b
  cases a <;> cases b
  case error.error x y =>
    exact if h : x = y then .isTrue (by rw [h]) else .isFalse (by intro hc; cases hc; exact h rfl)
  case ok.ok x y =>
    exact if h : x = y then .isTrue (by rw [h]) else .isFalse (by intro hc; cases hc; exact h rfl)
  case error.ok x y => exact .isFalse (by intro hc; cases hc)
  case ok.error x y => exact .isFalse (by intro hc; cases hc)

/-- Python list indexing `l[i]`: the element, or an `IndexError`. -/
def pyGet {α : Type} (l : List α) (i : ℕ) : Except PyError α :=
  match l.get? i with
  | some a => .ok a
  | none => .error .indexError

/-- The validation expression of `Score.compute`:
`all(len(sequence) == len(aligned_sequences[0]) for sequence in aligned_sequences)`.
For an empty list the generator body never runs, so the check passes
vacuously (`all([]) == True`); in particular `aligned_sequences[0]` is never
evaluated there. -/
def allSameLength (sequences : List (List Char)) : Bool :=
  sequences.all (fun s => s.length == (sequences.headD []).length)

/-- `Score.compute`: validate that every sequence has the first sequence's
length, then delegate to the metric's `evaluate`; otherwise raise the
alignment-length exception. -/
def Score.compute {α : Type} (evaluate : List (List Char) → Except PyError α)
    (aligned_sequences : List (List Char)) : Except PyError α :=
  if allSameLength aligned_sequences then evaluate aligned_sequences
  else .error .alignmentLengthMismatch

/-- The distinct elements of a list in first-occurrence order, with an
accumulator of already-seen elements.  This is the key order of a Python
`dict` built by inserting each element of the list in turn (later inserts of
the same key keep the original position). -/
def firstDedupAux (seen : List Char) : List Char → List Char
  | [] => []
  | c :: cs => if c ∈ seen then firstDedupAux seen cs else c :: firstDedupAux (c :: seen) cs

/-- Distinct elements of a list in first-occurrence order (Python `dict` /
`Counter` key order, also the cardinality of Python `set`). -/
def firstDedup (l : List Char) : List Char := firstDedupAux [] l

/-- The column-extraction loop shared by every per-column metric:
`for sequence in sequences: column.append(sequence[k])`.  Any too-short
sequence raises `IndexError`, exactly as Python indexing does. -/
def getColumn (sequences : List (List Char)) (k : ℕ) : Except PyError (List Char) :=
  sequences.mapM (fun s => pyGet s k)

/-- Total description of the column at index `k` (used to state theorems about
validated alignments, where every index is in bounds and the default is never
read). -/
def columnAt (sequences : List (List Char)) (k : ℕ) : List Char :=
  sequences.map (fun s => s.getD k '-')

/-- `Entropy.get_words_frequencies`: Python computes
`word_freq = [words.count(w) / len(words) for w in words]` and returns
`dict(zip(words, word_freq))`.  Building the dict collapses duplicate keys,
so the result has one entry per *distinct* word, keyed in first-occurrence
order, each mapped to `count(w) / len(words)` (all writes for a given key
carry the same value). -/
def Entropy.get_words_frequencies (words : List Char) : List (Char × ℚ) :=
  (firstDedup words).map (fun w => (w, (words.count w : ℚ) / (words.length : ℚ)))

/-- `Entropy.get_column_entropy`: iterate over the dict's entries and
accumulate `value * log(value)`. -/
def Entropy.get_column_entropy (lg : ℚ → ℚ) (column : List (Char × ℚ)) : ℚ :=
  (column.map (fun kv => kv.2 * lg kv.2)).sum

/-- `Entropy.evaluate`: over each column of the alignment, add the column's
entropy; `sequences[0]` raises `IndexError` on an empty input. -/
def Entropy.evaluate (lg : ℚ → ℚ) : List (List Char) → Except PyError ℚ
  | [] => .error .indexError
  | s0 :: rest =>
    (List.range s0.length).foldlM
      (fun acc k =>
        (getColumn (s0 :: rest) k).map
          (fun column => acc + Entropy.get_column_entropy lg (Entropy.get_words_frequencies column)))
      0

/-- `Entropy.compute` = shared validation, then `Entropy.evaluate`. -/
def Entropy.compute (lg : ℚ → ℚ) : List (List Char) → Except PyError ℚ :=
  Score.compute (Entropy.evaluate lg)

def Entropy.is_minimization : Bool := false

/-- Spec-side formula (per *distinct* symbol): each distinct symbol `w` of the
column contributes `(count w / n) * lg (count w / n)` exactly once. -/
def entropyPerDistinct (lg : ℚ → ℚ) (column : List Char) : ℚ :=
  ((firstDedup column).map
    (fun w => ((column.count w : ℚ) / (column.length : ℚ)) *
      lg ((column.count w : ℚ) / (column.length : ℚ)))).sum

/-- Claim-side formula (per symbol *occurrence*): every occurrence contributes
`(count w / n) * lg (count w / n)`, so a symbol occurring `m` times
contributes `m` such terms. -/
def entropyPerOccurrence (lg : ℚ → ℚ) (column : List Char) : ℚ :=
  (column.map
    (fun w => ((column.count w : ℚ) / (column.length : ℚ)) *
      lg ((column.count w : ℚ) / (column.length : ℚ)))).sum

/-- `Counter(column).most_common(1)[0][0]`: `Counter` keys appear in
first-occurrence order and `most_common` sorts stably by descending count, so
the winner is the first element (in first-occurrence order) attaining the
maximal count; `Mathlib`'s `List.argmax`, which keeps the current candidate
unless a strictly larger key appears, has exactly this tie-breaking.  On an
empty column `most_common(1)` is `[]` and the `[0]` raises `IndexError`. -/
def Star.most_frequent_char (column : List Char) : Except PyError Char :=
  match column.argmax (fun c => column.count c) with
  | some c => .ok c
  | none => .error .indexError

/-- `Star.get_score_of_k_column`: add the substitution value between the most
frequent char of the column and every char of the column (itself included). -/
def Star.get_score_of_k_column (d : Char → Char → ℤ) (column : List Char) :
    Except PyError ℤ :=
  (Star.most_frequent_char column).map (fun mfc => (column.map (fun c => d mfc c)).sum)

/-- `Star.evaluate`: sum the column scores over all columns. -/
def Star.evaluate (d : Char → Char → ℤ) : List (List Char) → Except PyError ℤ
  | [] => .error .indexError
  | s0 :: rest =>
    (List.range s0.length).foldlM
      (fun acc k => do
        let column ← getColumn (s0 :: rest) k
        let sc ← Star.get_score_of_k_column d column
        pure (acc + sc))
      0

/-- `Star.compute` = shared validation, then `Star.evaluate`. -/
def Star.compute (d : Char → Char → ℤ) : List (List Char) → Except PyError ℤ :=
  Score.compute (Star.evaluate d)

def Star.is_minimization : Bool := false

/-- Total version of the majority symbol of a column (the default is never
read on a non-empty column). -/
def firstMax (column : List Char) : Char :=
  (column.argmax (fun c => column.count c)).getD '-'

/-- Spec-side per-column star score. -/
def starColumnScore (d : Char → Char → ℤ) (column : List Char) : ℤ :=
  (column.map (fun c => d (firstMax column) c)).sum

/-- `itertools.combinations(column, 2)`: all position-pairs `(i, j)` with
`i < j`, in lexicographic position order. -/
def combinations2 {α : Type} : List α → List (α × α)
  | [] => []
  | x :: xs => (xs.map (fun y => (x, y))) ++ combinations2 xs

/-- `SumOfPairs.get_score_of_k_column`: sum the substitution value over all
pairs produced by `itertools.combinations(column, 2)`. -/
def SumOfPairs.get_score_of_k_column (d : Char → Char → ℤ) (column : List Char) : ℤ :=
  ((combinations2 column).map (fun p => d p.1 p.2)).sum

/-- `SumOfPairs.evaluate`: sum the column scores over all columns. -/
def SumOfPairs.evaluate (d : Char → Char → ℤ) : List (List Char) → Except PyError ℤ
  | [] => .error .indexError
  | s0 :: rest =>
    (List.range s0.length).foldlM
      (fun acc k =>
        (getColumn (s0 :: rest) k).map
          (fun column => acc + SumOfPairs.get_score_of_k_column d column))
      0

/-- `SumOfPairs.compute` = shared validation, then `SumOfPairs.evaluate`. -/
def SumOfPairs.compute (d : Char → Char → ℤ) : List (List Char) → Except PyError ℤ :=
  Score.compute (SumOfPairs.evaluate d)

def SumOfPairs.is_minimization : Bool := false

/-- Total number of gap symbols over all sequences
(`no_of_gaps += sequence.count('-')`). -/
def totalGaps (sequences : List (List Char)) : ℕ :=
  (sequences.map (fun s => s.count '-')).sum

/-- `PercentageOfNonGaps.evaluate`:
`100 - (no_of_gaps / (length_of_sequence * len(align_sequences)) * 100)`;
a zero denominator raises `ZeroDivisionError`, an empty input raises
`IndexError` at `align_sequences[0]`. -/
def PercentageOfNonGaps.evaluate : List (List Char) → Except PyError ℚ
  | [] => .error .indexError
  | s0 :: rest =>
    if s0.length * (s0 :: rest).length = 0 then .error .zeroDivisionError
    else
      .ok (100 - ((totalGaps (s0 :: rest) : ℚ) /
        ((s0.length * (s0 :: rest).length : ℕ) : ℚ) * 100))

/-- `PercentageOfNonGaps.compute` = shared validation, then `evaluate`. -/
def PercentageOfNonGaps.compute : List (List Char) → Except PyError ℚ :=
  Score.compute PercentageOfNonGaps.evaluate

def PercentageOfNonGaps.is_minimization : Bool := true

/-- `PercentageOfTotallyConservedColumns.evaluate`: count the columns whose
set of distinct symbols has size at most 1 (`len(set(column)) <= 1`), then
return `no_of_conserved_columns / length_sequence * 100`; a zero column count
raises `ZeroDivisionError`, an empty input raises `IndexError`. -/
def PercentageOfTotallyConservedColumns.evaluate :
    List (List Char) → Except PyError ℚ
  | [] => .error .indexError
  | s0 :: rest =>
    ((List.range s0.length).foldlM
      (fun acc k =>
        (getColumn (s0 :: rest) k).map
          (fun column => if (firstDedup column).length ≤ 1 then acc + 1 else acc))
      (0 : ℕ)) >>= fun conserved =>
        if s0.length = 0 then .error .zeroDivisionError
        else .ok ((conserved : ℚ) / (s0.length : ℚ) * 100)

/-- `PercentageOfTotallyConservedColumns.compute` = validation then `evaluate`. -/
def PercentageOfTotallyConservedColumns.compute : List (List Char) → Except PyError ℚ :=
  Score.compute PercentageOfTotallyConservedColumns.evaluate

def PercentageOfTotallyConservedColumns.is_minimization : Bool := false

/-- Outcome of the structure-archive fetch for one ID: a successful download,
an HTTP error response (`urllib.error.HTTPError`, e.g. 404), or a
transport-level failure that is not an `HTTPError`. -/
inductive NetResult where
  | ok
  | notFound
  | transportError
deriving DecidableEq, Repr

/-- The filesystem state `Strike` interacts with: the connectivity file
`strike/in.con` and alignment file `strike/aln.fa` (`none` = absent, `some
lines` = present with those lines), and the set of `<id>.pdb` structure files
present in the staging directory. -/
structure StrikeFS where
  con : Option (List String)
  aln : Option (List String)
  pdbs : List String
deriving DecidableEq, Repr

/-- The staging path `strike/<id>.pdb` of a structure file. -/
def strikePdbPath (pdb_id : String) : String := "strike/" ++ pdb_id ++ ".pdb"

/-- `Strike.get_pdb`: if `strike/<id>.pdb` is not already a file, fetch
`<archive-base>/<id>.pdb`; an `HTTPError` is turned into the
structure-not-found exception, while a transport failure (`URLError`) is not
caught and propagates; on success the fetched bytes are persisted.  Returns
the local path together with the updated filesystem. -/
def Strike.get_pdb (net : String → NetResult) (fs : StrikeFS) (pdb_id : String) :
    Except PyError (String × StrikeFS) :=
  if pdb_id ∈ fs.pdbs then .ok (strikePdbPath pdb_id, fs)
  else
    match net pdb_id with
    | .ok => .ok (strikePdbPath pdb_id, { fs with pdbs := pdb_id :: fs.pdbs })
    | .notFound => .error .structureNotFound
    | .transportError => .error .urlError

/-- One iteration of `Strike.evaluate`'s staging loop: download the `i`-th
structure file, append the connectivity line
`<id> strike/<id>.pdb <chain>` and the FASTA record `>id` / sequence.
Out-of-range accesses to `sequences_id[i]` / `chains[i]` raise `IndexError`
in the same order as the Python statements. -/
def Strike.stageStep (net : String → NetResult)
    (align_sequences sequences_id chains : List String)
    (fs : StrikeFS) (i : ℕ) : Except PyError StrikeFS := do
  let pdb_id ← pyGet sequences_id i
  let (_path, fs1) ← Strike.get_pdb net fs pdb_id
  let chain ← pyGet chains i
  let sq ← pyGet align_sequences i
  pure { fs1 with
    con := some ((fs1.con.getD []) ++ [pdb_id ++ " " ++ strikePdbPath pdb_id ++ " " ++ chain]),
    aln := some ((fs1.aln.getD []) ++ [">" ++ pdb_id, sq]) }

/-- `Strike.evaluate`: if neither the connectivity file nor the alignment file
exists, open both with mode `w+` (creating them empty) and run the staging
loop over all sequences; otherwise skip staging entirely.  Finally run the
external executable (`tool`, abstracted as a function of the filesystem) and
return its numeric output together with the final filesystem. -/
def Strike.evaluate (net : String → NetResult) (tool : StrikeFS → ℚ)
    (align_sequences sequences_id chains : List String) (fs : StrikeFS) :
    Except PyError (ℚ × StrikeFS) :=
  if fs.con.isNone && fs.aln.isNone then
    ((List.range align_sequences.length).foldlM
      (Strike.stageStep net align_sequences sequences_id chains)
      { fs with con := some [], aln := some [] }).map (fun fs2 => (tool fs2, fs2))
  else .ok (tool fs, fs)

/-- `Strike.compute` delegates directly to `Strike.evaluate`; unlike the
`Score` subclasses there is no length validation (`Strike` does not derive
from `Score`). -/
def Strike.compute (net : String → NetResult) (tool : StrikeFS → ℚ)
    (align_sequences sequences_id chains : List String) (fs : StrikeFS) :
    Except PyError (ℚ × StrikeFS) :=
  Strike.evaluate net tool align_sequences sequences_id chains fs

def Strike.is_minimization : Bool := false

/-- A filesystem state in which both staging files already exist. -/
def fsStaged : StrikeFS := { con := some [], aln := some [], pdbs := [] }

/-- The clean filesystem state, before any staging. -/
def fsClean : StrikeFS := { con := none, aln := none, pdbs := [] }

/-- The filesystem state after a first `Strike.compute` from `fsClean` over
the alignment `["AB"]` with sequence ID `"1abc"` and chain `"A"`. -/
def fsAfterFirst : StrikeFS :=
  { con := some ["1abc strike/1abc.pdb A"], aln := some [">1abc", "AB"], pdbs := ["1abc"] }

/-! ## General lemmas about the `Except` monad and effectful folds -/

theorem ok_bind {ε α β : Type} (x : α) (f : α → Except ε β) :
    (Except.ok x >>= f) = f x := rfl

theorem error_bind {ε α β : Type} (err : ε) (f : α → Except ε β) :
    ((Except.error err : Except ε α) >>= f) = .error err := rfl

theorem ok_map {ε α β : Type} (x : α) (f : α → β) :
    (Except.ok x : Except ε α).map f = .ok (f x) := rfl

theorem exceptBind_ok {ε α β : Type} (x : Except ε α) (f : α → Except ε β) (b : β) :
    (x >>= f) = .ok b ↔ ∃ a, x = .ok a ∧ f a = .ok b := by
  cases x with
  | error e =>
    simp only [error_bind]
    constructor
    · intro h; cases h
    · rintro ⟨a, ha, -⟩; cases ha
  | ok a =>
    simp only [ok_bind]
    constructor
    · intro h; exact ⟨a, rfl, h⟩
    · rintro ⟨a2, ha, hfa⟩
      have : a = a2 := by injection ha
      rw [this]; exact hfa

theorem foldlM_add_ok {β : Type} [AddCommMonoid β] (step : β → ℕ → Except PyError β)
    (v : ℕ → β) :
    ∀ l : List ℕ, (∀ k ∈ l, ∀ acc, step acc k = .ok (acc + v k)) →
      ∀ a : β, l.foldlM step a = .ok (a + (l.map v).sum)
  | [], _, a => by simp [List.foldlM_nil, pure, Except.pure]
  | k :: ks, h, a => by
    rw [List.foldlM_cons]
    show (step a k >>= fun x => ks.foldlM step x) = _
    rw [h k (List.mem_cons_self k ks) a, ok_bind]
    rw [foldlM_add_ok step v ks (fun j hj acc => h j (List.mem_cons_of_mem k hj) acc) (a + v k)]
    simp [add_assoc]

theorem foldlM_preserves {σ : Type} (step : σ → ℕ → Except PyError σ) (P : σ → Prop)
    (hstep : ∀ s k s', step s k = .ok s' → P s') :
    ∀ (l : List ℕ) (s0 s1 : σ), P s0 → l.foldlM step s0 = .ok s1 → P s1
  | [], s0, s1, hP, hfold => by
    rw [List.foldlM_nil] at hfold
    have : s0 = s1 := by injection hfold
    rw [← this]; exact hP
  | k :: ks, s0, s1, hP, hfold => by
    rw [List.foldlM_cons] at hfold
    have hfold2 : (step s0 k >>= fun x => ks.foldlM step x) = .ok s1 := hfold
    obtain ⟨mid, hmid, hrest⟩ := (exceptBind_ok _ _ _).mp hfold2
    exact foldlM_preserves step P hstep ks mid s1 (hstep s0 k mid hmid) hrest

/-! ## Lemmas about validation and column extraction -/

theorem allSameLength_spec {s0 : List Char} {rest : List (List Char)}
    (h : allSameLength (s0 :: rest) = true) :
    ∀ s ∈ s0 :: rest, s.length = s0.length := by
  intro s hs
  have h2 := List.all_eq_true.mp h s hs
  simpa using h2

theorem pyGet_ok {α : Type} (l : List α) (i : ℕ) (d : α) (h : i < l.length) :
    pyGet l i = .ok (l.getD i d) := by
  unfold pyGet
  rw [List.get?_eq_get h]
  simp [List.getD_eq_getElem?_getD, List.getElem?_eq_getElem h]

theorem getColumn_ok :
    ∀ (sequences : List (List Char)) (k : ℕ), (∀ s ∈ sequences, k < s.length) →
      getColumn sequences k = .ok (columnAt sequences k)
  | [], k, _ => rfl
  | s :: ss, k, h => by
    unfold getColumn
    rw [List.mapM_cons]
    show (pyGet s k >>= fun a => (ss.mapM (fun t => pyGet t k)) >>= fun as => pure (a :: as)) = _
    rw [pyGet_ok s k '-' (h s (List.mem_cons_self s ss)), ok_bind]
    have ih := getColumn_ok ss k (fun t ht => h t (List.mem_cons_of_mem s ht))
    unfold getColumn at ih
    rw [ih, ok_bind]
    rfl

/-! ## Arithmetic helper lemmas -/

theorem sum_boole (p : ℕ → Bool) :
    ∀ l : List ℕ, (l.map (fun k => if p k then (1 : ℕ) else 0)).sum = l.countP p
  | [] => rfl
  | k :: ks => by
    simp [List.countP_cons, sum_boole p ks, Nat.add_comm]

theorem sum_all_eq : ∀ (l : List ℕ) (m : ℕ), (∀ x ∈ l, x = m) → l.sum = l.length * m
  | [], m, _ => by simp
  | x :: xs, m, h => by
    simp only [List.sum_cons, List.length_cons]
    rw [h x (List.mem_cons_self x xs), sum_all_eq xs m (fun y hy => h y (List.mem_cons_of_mem x hy))]
    ring

/-! ## Per-metric lemmas -/

theorem entropy_column_eq (lg : ℚ → ℚ) (col : List Char) :
    Entropy.get_column_entropy lg (Entropy.get_words_frequencies col) =
      entropyPerDistinct lg col := by
  unfold Entropy.get_column_entropy Entropy.get_words_frequencies entropyPerDistinct
  rw [List.map_map]
  rfl

theorem entropy_compute_ok (lg : ℚ → ℚ) (s0 : List Char) (rest : List (List Char))
    (hlen : allSameLength (s0 :: rest) = true) :
    Entropy.compute lg (s0 :: rest) =
      .ok (((List.range s0.length).map
        (fun k => entropyPerDistinct lg (columnAt (s0 :: rest) k))).sum) := by
  unfold Entropy.compute Score.compute
  rw [hlen]
  simp only [if_true]
  simp only [Entropy.evaluate]
  rw [foldlM_add_ok _ (fun k => entropyPerDistinct lg (columnAt (s0 :: rest) k)) _ ?step 0]
  · rw [zero_add]
  case step =>
    intro k hk acc
    have hcol := getColumn_ok (s0 :: rest) k
      (fun s hs => by rw [allSameLength_spec hlen s hs]; exact List.mem_range.mp hk)
    rw [hcol, ok_map, entropy_column_eq]

theorem most_frequent_char_ok (column : List Char) (h : column ≠ []) :
    Star.most_frequent_char column = .ok (firstMax column) := by
  unfold Star.most_frequent_char firstMax
  cases harg : column.argmax (fun c => column.count c) with
  | none => exact absurd (List.argmax_eq_none.mp harg) h
  | some m => simp

theorem star_compute_ok (d : Char → Char → ℤ) (s0 : List Char) (rest : List (List Char))
    (hlen : allSameLength (s0 :: rest) = true) :
    Star.compute d (s0 :: rest) =
      .ok (((List.range s0.length).map
        (fun k => starColumnScore d (columnAt (s0 :: rest) k))).sum) := by
  unfold Star.compute Score.compute
  rw [hlen]
  simp only [if_true]
  simp only [Star.evaluate]
  rw [foldlM_add_ok _ (fun k => starColumnScore d (columnAt (s0 :: rest) k)) _ ?step 0]
  · rw [zero_add]
  case step =>
    intro k hk acc
    have hcol := getColumn_ok (s0 :: rest) k
      (fun s hs => by rw [allSameLength_spec hlen s hs]; exact List.mem_range.mp hk)
    have hne : columnAt (s0 :: rest) k ≠ [] := by
      simp only [columnAt, List.map_cons]
      exact List.cons_ne_nil _ _
    show (getColumn (s0 :: rest) k >>= fun column =>
      Star.get_score_of_k_column d column >>= fun sc => pure (acc + sc)) = _
    rw [hcol, ok_bind]
    unfold Star.get_score_of_k_column
    rw [most_frequent_char_ok _ hne, ok_map, ok_bind]
    rfl

theorem sop_compute_ok (d : Char → Char → ℤ) (s0 : List Char) (rest : List (List Char))
    (hlen : allSameLength (s0 :: rest) = true) :
    SumOfPairs.compute d (s0 :: rest) =
      .ok (((List.range s0.length).map
        (fun k => SumOfPairs.get_score_of_k_column d (columnAt (s0 :: rest) k))).sum) := by
  unfold SumOfPairs.compute Score.compute
  rw [hlen]
  simp only [if_true]
  simp only [SumOfPairs.evaluate]
  rw [foldlM_add_ok _ (fun k => SumOfPairs.get_score_of_k_column d (columnAt (s0 :: rest) k)) _
    ?step 0]
  · rw [zero_add]
  case step =>
    intro k hk acc
    have hcol := getColumn_ok (s0 :: rest) k
      (fun s hs => by rw [allSameLength_spec hlen s hs]; exact List.mem_range.mp hk)
    rw [hcol, ok_map]

theorem pong_compute_ok (s0 : List Char) (rest : List (List Char)) (h0 : s0 ≠ [])
    (hlen : allSameLength (s0 :: rest) = true) :
    PercentageOfNonGaps.compute (s0 :: rest) =
      .ok (100 - ((totalGaps (s0 :: rest) : ℚ) /
        ((s0.length * (s0 :: rest).length : ℕ) : ℚ) * 100)) := by
  unfold PercentageOfNonGaps.compute Score.compute
  rw [hlen]
  simp only [if_true]
  simp only [PercentageOfNonGaps.evaluate]
  rw [if_neg]
  exact Nat.mul_ne_zero (fun hl => h0 (List.length_eq_zero.mp hl)) (by simp)

theorem potcc_compute_ok (s0 : List Char) (rest : List (List Char)) (h0 : s0 ≠ [])
    (hlen : allSameLength (s0 :: rest) = true) :
    PercentageOfTotallyConservedColumns.compute (s0 :: rest) =
      .ok ((((List.range s0.length).countP
        (fun k => decide ((firstDedup (columnAt (s0 :: rest) k)).length ≤ 1))) : ℚ) /
          (s0.length : ℚ) * 100) := by
  unfold PercentageOfTotallyConservedColumns.compute Score.compute
  rw [hlen]
  simp only [if_true]
  simp only [PercentageOfTotallyConservedColumns.evaluate]
  rw [foldlM_add_ok _
    (fun k => if (firstDedup (columnAt (s0 :: rest) k)).length ≤ 1 then (1 : ℕ) else 0) _
    ?step 0]
  case step =>
    intro k hk acc
    have hcol := getColumn_ok (s0 :: rest) k
      (fun s hs => by rw [allSameLength_spec hlen s hs]; exact List.mem_range.mp hk)
    rw [hcol, ok_map]
    by_cases hcond : (firstDedup (columnAt (s0 :: rest) k)).length ≤ 1
    · simp [hcond]
    · simp [hcond]
  rw [ok_bind]
  rw [if_neg (fun hl => h0 (List.length_eq_zero.mp hl))]
  rw [zero_add]
  congr 2
  have : (fun k => if (firstDedup (columnAt (s0 :: rest) k)).length ≤ 1 then (1 : ℕ) else 0) =
      (fun k => if (fun j => decide ((firstDedup (columnAt (s0 :: rest) j)).length ≤ 1)) k
        then (1 : ℕ) else 0) := by
    funext k
    by_cases hcond : (firstDedup (columnAt (s0 :: rest) k)).length ≤ 1
    · simp [hcond]
    · simp [hcond]
  rw [this, sum_boole]

theorem combinations2_length {α : Type} :
    ∀ l : List α, (combinations2 l).length = l.length.choose 2
  | [] => rfl
  | x :: xs => by
    simp [combinations2, combinations2_length xs, Nat.choose_succ_succ, Nat.choose_one_right]

theorem sop_column_replicate (d : Char → Char → ℤ) (c : Char) (M : ℤ) (hM : d c c = M) :
    ∀ n : ℕ, SumOfPairs.get_score_of_k_column d (List.replicate n c) = (n.choose 2 : ℤ) * M
  | 0 => by simp [SumOfPairs.get_score_of_k_column, combinations2]
  | n + 1 => by
    rw [List.replicate_succ]
    unfold SumOfPairs.get_score_of_k_column
    simp only [combinations2, List.map_append, List.sum_append, List.map_map, List.map_replicate]
    rw [hM]
    have h2 := sop_column_replicate d c M hM n
    unfold SumOfPairs.get_score_of_k_column at h2
    rw [h2, List.sum_replicate, nsmul_eq_mul]
    push_cast [Nat.choose_succ_succ, Nat.choose_one_right]
    ring

theorem firstMax_replicate (c : Char) (n : ℕ) (hn : 0 < n) :
    firstMax (List.replicate n c) = c := by
  unfold firstMax
  cases harg : (List.replicate n c).argmax (fun x => (List.replicate n c).count x) with
  | none =>
    exfalso
    have h := List.argmax_eq_none.mp harg
    rw [List.replicate_eq_nil_iff] at h
    omega
  | some m =>
    have hm : m ∈ List.replicate n c := List.argmax_mem (Option.mem_def.mpr harg)
    simp [List.eq_of_mem_replicate hm]

theorem starColumnScore_replicate (d : Char → Char → ℤ) (M : ℤ) (hM : ∀ x, d x x = M)
    (c : Char) (n : ℕ) (hn : 0 < n) :
    starColumnScore d (List.replicate n c) = (n : ℤ) * M := by
  unfold starColumnScore
  rw [firstMax_replicate c n hn, List.map_replicate, hM, List.sum_replicate, nsmul_eq_mul]

theorem replicate_allSameLength (n : ℕ) (s : List Char) :
    allSameLength (List.replicate n s) = true := by
  cases n with
  | zero => rfl
  | succ m =>
    unfold allSameLength
    rw [List.all_eq_true]
    intro t ht
    rw [List.eq_of_mem_replicate ht, List.replicate_succ]
    simp

theorem sum_map_range_const {β : Type} [AddCommMonoid β] (L : ℕ) (b : β) :
    ((List.range L).map (fun _ => b)).sum = L • b := by
  rw [show (fun _ : ℕ => b) = Function.const ℕ b from rfl, List.map_const, List.length_range,
    List.sum_replicate]

theorem stageStep_files (net : String → NetResult)
    (align_sequences sequences_id chains : List String) (st : StrikeFS) (i : ℕ)
    (st' : StrikeFS)
    (h : Strike.stageStep net align_sequences sequences_id chains st i = .ok st') :
    st'.con ≠ none ∧ st'.aln ≠ none := by
  unfold Strike.stageStep at h
  rw [exceptBind_ok] at h
  obtain ⟨pdb_id, hp, h⟩ := h
  rw [exceptBind_ok] at h
  obtain ⟨pr, hg, h⟩ := h
  obtain ⟨path, fs1⟩ := pr
  dsimp only at h
  rw [exceptBind_ok] at h
  obtain ⟨chain, hc, h⟩ := h
  rw [exceptBind_ok] at h
  obtain ⟨sq, hs, h⟩ := h
  have h2 : ({ fs1 with
      con := some ((fs1.con.getD []) ++ [pdb_id ++ " " ++ strikePdbPath pdb_id ++ " " ++ chain]),
      aln := some ((fs1.aln.getD []) ++ [">" ++ pdb_id, sq]) } : StrikeFS) = st' := by
    injection h
  rw [← h2]
  constructor <;> simp

theorem score_compute_mismatch {α : Type} (evaluate : List (List Char) → Except PyError α)
    (sequences : List (List Char)) (h : allSameLength sequences = false) :
    Score.compute evaluate sequences = .error .alignmentLengthMismatch := by
  unfold Score.compute
  rw [h]
  simp

/-! ## Claims -/

/-- C9: for every metric derived from `Score`, calling `compute` on the empty
list of sequences passes the equal-length validation vacuously (the check over
an empty list is `True`), so no `AlignmentLengthMismatch` is raised; the call
instead fails inside `evaluate` with the out-of-range access `sequences[0]`,
i.e. an `IndexError`. -/
theorem compute_empty_alignment :
    ∀ (lg : ℚ → ℚ) (d : Char → Char → ℤ),
      allSameLength [] = true ∧
      PyError.indexError ≠ PyError.alignmentLengthMismatch ∧
      Entropy.compute lg [] = .error .indexError ∧
      Star.compute d [] = .error .indexError ∧
      SumOfPairs.compute d [] = .error .indexError ∧
      PercentageOfNonGaps.compute [] = .error .indexError ∧
      PercentageOfTotallyConservedColumns.compute [] = .error .indexError :=
  fun _ _ => ⟨rfl, by decide, rfl, rfl, rfl, rfl, rfl⟩

/-- C10: for a non-empty alignment whose sequences are all the empty string,
the equal-length validation passes, yet `PercentageOfNonGaps.evaluate` and
`PercentageOfTotallyConservedColumns.evaluate` divide by zero (total positions
and total columns are 0), reaching the division error branch. -/
theorem zero_length_division_error :
    ∀ n : ℕ, 0 < n →
      allSameLength (List.replicate n []) = true ∧
      PercentageOfNonGaps.compute (List.replicate n []) = .error .zeroDivisionError ∧
      PercentageOfTotallyConservedColumns.compute (List.replicate n []) =
        .error .zeroDivisionError := by
  intro n hn
  obtain ⟨m, rfl⟩ : ∃ m, n = m + 1 := ⟨n - 1, by omega⟩
  refine ⟨replicate_allSameLength _ _, ?_, ?_⟩
  · unfold PercentageOfNonGaps.compute Score.compute
    rw [replicate_allSameLength]
    simp only [if_true]
    rw [List.replicate_succ]
    simp [PercentageOfNonGaps.evaluate]
  · unfold PercentageOfTotallyConservedColumns.compute Score.compute
    rw [replicate_allSameLength]
    simp only [if_true]
    rw [List.replicate_succ]
    simp [PercentageOfTotallyConservedColumns.evaluate, ok_bind, List.foldlM_nil]

/-- C10 witness at `n = 2`. -/
theorem zero_length_division_error_witness :
    allSameLength (List.replicate 2 []) = true ∧
    PercentageOfNonGaps.compute (List.replicate 2 []) = .error .zeroDivisionError ∧
    PercentageOfTotallyConservedColumns.compute (List.replicate 2 []) =
      .error .zeroDivisionError :=
  zero_length_division_error 2 (by decide)

/-- C2 (amended): the five `Score`-derived metrics raise the
alignment-length-mismatch error from `compute` whenever the sequences are not
all of equal length, before any evaluation; `Strike.compute`, however,
performs no validation at all and delegates directly to `Strike.evaluate`. -/
theorem compute_length_validation :
    (∀ (lg : ℚ → ℚ) sequences, allSameLength sequences = false →
       Entropy.compute lg sequences = .error .alignmentLengthMismatch) ∧
    (∀ (d : Char → Char → ℤ) sequences, allSameLength sequences = false →
       Star.compute d sequences = .error .alignmentLengthMismatch) ∧
    (∀ (d : Char → Char → ℤ) sequences, allSameLength sequences = false →
       SumOfPairs.compute d sequences = .error .alignmentLengthMismatch) ∧
    (∀ sequences, allSameLength sequences = false →
       PercentageOfNonGaps.compute sequences = .error .alignmentLengthMismatch) ∧
    (∀ sequences, allSameLength sequences = false →
       PercentageOfTotallyConservedColumns.compute sequences =
         .error .alignmentLengthMismatch) ∧
    (∀ net tool align_sequences sequences_id chains fs,
       Strike.compute net tool align_sequences sequences_id chains fs =
         Strike.evaluate net tool align_sequences sequences_id chains fs) :=
  ⟨fun lg s h => score_compute_mismatch (Entropy.evaluate lg) s h,
   fun d s h => score_compute_mismatch (Star.evaluate d) s h,
   fun d s h => score_compute_mismatch (SumOfPairs.evaluate d) s h,
   fun s h => score_compute_mismatch PercentageOfNonGaps.evaluate s h,
   fun s h => score_compute_mismatch PercentageOfTotallyConservedColumns.evaluate s h,
   fun _ _ _ _ _ _ => rfl⟩

/-- C2 witness: the five validating metrics on the concrete unequal-length
alignment `["A", "BB"]`. -/
theorem compute_length_validation_witness :
    Entropy.compute (fun q => q) [['A'], ['B', 'B']] = .error .alignmentLengthMismatch ∧
    Star.compute (fun _ _ => 0) [['A'], ['B', 'B']] = .error .alignmentLengthMismatch ∧
    SumOfPairs.compute (fun _ _ => 0) [['A'], ['B', 'B']] = .error .alignmentLengthMismatch ∧
    PercentageOfNonGaps.compute [['A'], ['B', 'B']] = .error .alignmentLengthMismatch ∧
    PercentageOfTotallyConservedColumns.compute [['A'], ['B', 'B']] =
      .error .alignmentLengthMismatch :=
  ⟨compute_length_validation.1 _ _ (by decide),
   compute_length_validation.2.1 _ _ (by decide),
   compute_length_validation.2.2.1 _ _ (by decide),
   compute_length_validation.2.2.2.1 _ (by decide),
   compute_length_validation.2.2.2.2.1 _ (by decide)⟩

/-- C2 counterexample to the claim as stated: `Strike.compute` on sequences of
unequal length (`"A"` vs `"BB"`) does not raise anything — with both staging
files present it succeeds and returns the external tool's output. -/
theorem strike_compute_no_validation_cex :
    ("A".length ≠ "BB".length) ∧
    Strike.compute (fun _ => NetResult.notFound) (fun _ => 0) ["A", "BB"]
      ["1abc", "2abc"] ["A", "B"] fsStaged = .ok (0, fsStaged) ∧
    (Except.ok ((0 : ℚ), fsStaged) ≠
      (Except.error PyError.alignmentLengthMismatch : Except PyError (ℚ × StrikeFS))) :=
  ⟨by decide, rfl, by intro h; cases h⟩

/-- C8 (amended): `Strike.get_pdb` fetches from the archive only when the
local file `strike/<id>.pdb` does not already exist; on an HTTP error response
(`HTTPError`, e.g. not-found) it raises the structure-not-found exception; on
success it persists the file and returns the local path.  (A transport-level
error that is not an `HTTPError` is not caught and propagates as the
underlying `URLError`: see the counterexample.) -/
theorem get_pdb_spec :
    (∀ (net : String → NetResult) (fs : StrikeFS) (pdb_id : String), pdb_id ∈ fs.pdbs →
       Strike.get_pdb net fs pdb_id = .ok (strikePdbPath pdb_id, fs)) ∧
    (∀ net fs pdb_id, pdb_id ∉ fs.pdbs → net pdb_id = NetResult.ok →
       Strike.get_pdb net fs pdb_id =
         .ok (strikePdbPath pdb_id, { fs with pdbs := pdb_id :: fs.pdbs })) ∧
    (∀ net fs pdb_id, pdb_id ∉ fs.pdbs → net pdb_id = NetResult.notFound →
       Strike.get_pdb net fs pdb_id = .error .structureNotFound) ∧
    (∀ net fs pdb_id, pdb_id ∉ fs.pdbs → net pdb_id = NetResult.transportError →
       Strike.get_pdb net fs pdb_id = .error .urlError) := by
  refine ⟨?_, ?_, ?_, ?_⟩
  · intro net fs pdb_id h
    unfold Strike.get_pdb
    rw [if_pos h]
  · intro net fs pdb_id h hnet
    unfold Strike.get_pdb
    rw [if_neg h, hnet]
  · intro net fs pdb_id h hnet
    unfold Strike.get_pdb
    rw [if_neg h, hnet]
  · intro net fs pdb_id h hnet
    unfold Strike.get_pdb
    rw [if_neg h, hnet]

/-- C8 witness: a missing local file whose fetch answers with an HTTP error
raises the structure-not-found exception. -/
theorem get_pdb_spec_witness :
    Strike.get_pdb (fun _ => NetResult.notFound) { con := none, aln := none, pdbs := [] }
      "9xyz" = .error .structureNotFound :=
  get_pdb_spec.2.2.1 _ _ _ (by simp) rfl

/-- C8 counterexample to the claim as stated: a transport error is *not*
turned into the structure-not-found exception — only `HTTPError` is caught —
so the call fails with the propagated `URLError` instead. -/
theorem get_pdb_transport_error_cex :
    Strike.get_pdb (fun _ => NetResult.transportError)
      { con := none, aln := none, pdbs := [] } "1abc" = .error .urlError ∧
    PyError.urlError ≠ PyError.structureNotFound :=
  ⟨rfl, by decide⟩

/-- C1 (amended): for every valid alignment, `Entropy.evaluate` (through
`compute`) returns the sum over all columns of a per-column accumulation of
`frequency * log(frequency)` taken once per *distinct* symbol of the column:
a symbol appearing `m` times in a column of `n` sequences contributes
`(m/n) * log(m/n)` exactly once, because `dict(zip(words, word_freq))`
collapses duplicate keys. -/
theorem entropy_per_distinct_symbol :
    ∀ (lg : ℚ → ℚ) (sequences : List (List Char)) (s0 : List Char)
      (rest : List (List Char)),
      sequences = s0 :: rest → allSameLength sequences = true →
      Entropy.compute lg sequences =
        .ok (((List.range s0.length).map
          (fun k => entropyPerDistinct lg (columnAt sequences k))).sum) := by
  intro lg sequences s0 rest hseq hlen
  subst hseq
  exact entropy_compute_ok lg s0 rest hlen

/-- C1 witness: the single-sequence alignment `["AB"]` with the identity in
place of the logarithm; both columns have one distinct symbol of frequency 1,
so the score is `1*1 + 1*1 = 2`. -/
theorem entropy_per_distinct_symbol_witness :
    Entropy.compute (fun q => q) [['A', 'B']] = .ok 2 := by
  have h := entropy_per_distinct_symbol (fun q => q) [['A', 'B']] ['A', 'B'] [] rfl (by decide)
  rw [h]
  simp [entropyPerDistinct, columnAt, firstDedup, firstDedupAux, List.range_succ,
    List.count_cons, List.count_nil]
  norm_num

/-- C1 counterexample to the claim as stated: on the alignment
`["A", "A", "B"]` (one column, `n = 3`), with the logarithm abstracted as the
identity function, the code returns `(2/3)*(2/3) + (1/3)*(1/3) = 5/9` — the
symbol `A`, which appears `m = 2` times, contributes its term once, not
`m` times — whereas the claimed once-per-occurrence accumulation would give
`2*(2/3)*(2/3) + (1/3)*(1/3) = 1`. -/
theorem entropy_per_occurrence_refuted :
    Entropy.compute (fun q => q) [['A'], ['A'], ['B']] = .ok (5 / 9) ∧
    ((List.range 1).map (fun k => entropyPerOccurrence (fun q => q)
      (columnAt [['A'], ['A'], ['B']] k))).sum = 1 ∧
    ((5 : ℚ) / 9) ≠ 1 := by
  refine ⟨?_, ?_, by norm_num⟩
  · simp [Entropy.compute, Score.compute, allSameLength, Entropy.evaluate, getColumn, pyGet,
      Entropy.get_words_frequencies, firstDedup, firstDedupAux, Entropy.get_column_entropy,
      List.range_succ, List.foldlM_cons, List.foldlM_nil, List.mapM.loop, List.mapM,
      Except.map, ok_bind, List.count_cons, List.count_nil]
    norm_num
  · simp [entropyPerOccurrence, columnAt, List.range_succ, List.count_cons, List.count_nil]
    norm_num

/-- C5: for every non-empty alignment of non-empty equal-length sequences,
`PercentageOfNonGaps.compute` returns
`100 - totalGaps / (sequenceLength * numberOfSequences) * 100`; with no gap
symbols the result is exactly 100, with only gap symbols it is exactly 0, and
`is_minimization` is declared `true`. -/
theorem percentage_of_non_gaps_spec :
    (∀ (sequences : List (List Char)) (s0 : List Char) (rest : List (List Char)),
       sequences = s0 :: rest → s0 ≠ [] → allSameLength sequences = true →
       PercentageOfNonGaps.compute sequences =
         .ok (100 - ((totalGaps sequences : ℚ) /
           ((s0.length * sequences.length : ℕ) : ℚ) * 100))) ∧
    (∀ (sequences : List (List Char)) (s0 : List Char) (rest : List (List Char)),
       sequences = s0 :: rest → s0 ≠ [] → allSameLength sequences = true →
       (∀ s ∈ sequences, '-' ∉ s) →
       PercentageOfNonGaps.compute sequences = .ok 100) ∧
    (∀ (sequences : List (List Char)) (s0 : List Char) (rest : List (List Char)),
       sequences = s0 :: rest → s0 ≠ [] → allSameLength sequences = true →
       (∀ s ∈ sequences, ∀ c ∈ s, c = '-') →
       PercentageOfNonGaps.compute sequences = .ok 0) ∧
    PercentageOfNonGaps.is_minimization = true := by
  refine ⟨?_, ?_, ?_, rfl⟩
  · intro sequences s0 rest hseq h0 hlen
    subst hseq
    exact pong_compute_ok s0 rest h0 hlen
  · intro sequences s0 rest hseq h0 hlen hng
    subst hseq
    rw [pong_compute_ok s0 rest h0 hlen]
    have hg : totalGaps (s0 :: rest) = 0 := by
      unfold totalGaps
      apply List.sum_eq_zero
      intro x hx
      rw [List.mem_map] at hx
      obtain ⟨s, hs, rfl⟩ := hx
      exact List.count_eq_zero.mpr (hng s hs)
    rw [hg]
    norm_num
  · intro sequences s0 rest hseq h0 hlen hag
    subst hseq
    rw [pong_compute_ok s0 rest h0 hlen]
    have hg : totalGaps (s0 :: rest) = (s0 :: rest).length * s0.length := by
      unfold totalGaps
      rw [sum_all_eq _ s0.length ?all, List.length_map]
      case all =>
        intro x hx
        rw [List.mem_map] at hx
        obtain ⟨s, hs, rfl⟩ := hx
        rw [List.count_eq_length.mpr (fun b hb => (hag s hs b hb).symm)]
        exact allSameLength_spec hlen s hs
    rw [hg]
    have hL : (s0.length : ℚ) ≠ 0 :=
      Nat.cast_ne_zero.mpr (fun hl => h0 (List.length_eq_zero.mp hl))
    have hN : ((s0 :: rest).length : ℚ) ≠ 0 := Nat.cast_ne_zero.mpr (by simp)
    have hfrac : (((s0 :: rest).length * s0.length : ℕ) : ℚ) /
        ((s0.length * (s0 :: rest).length : ℕ) : ℚ) = 1 := by
      push_cast
      rw [mul_comm]
      exact div_self (mul_ne_zero hL hN)
    rw [hfrac]
    norm_num

/-- C5 witness: a gap-free alignment scores exactly 100. -/
theorem percentage_of_non_gaps_spec_witness :
    PercentageOfNonGaps.compute [['A', 'B']] = .ok 100 :=
  percentage_of_non_gaps_spec.2.1 [['A', 'B']] ['A', 'B'] [] rfl (by decide) (by decide)
    (by decide)

/-- C6: for every non-empty alignment of non-empty equal-length sequences,
`PercentageOfTotallyConservedColumns.compute` returns
`conservedColumns / totalColumns * 100`, a column counting as conserved
exactly when its set of distinct symbols has size at most 1; a single-sequence
input has every column conserved (score 100), and `["AC", "AC", "AG"]` scores
exactly 50. -/
theorem totally_conserved_columns_spec :
    (∀ (sequences : List (List Char)) (s0 : List Char) (rest : List (List Char)),
       sequences = s0 :: rest → s0 ≠ [] → allSameLength sequences = true →
       PercentageOfTotallyConservedColumns.compute sequences =
         .ok ((((List.range s0.length).countP
           (fun k => decide ((firstDedup (columnAt sequences k)).length ≤ 1))) : ℚ) /
             (s0.length : ℚ) * 100)) ∧
    (∀ s : List Char, s ≠ [] →
       PercentageOfTotallyConservedColumns.compute [s] = .ok 100) ∧
    PercentageOfTotallyConservedColumns.compute [['A', 'C'], ['A', 'C'], ['A', 'G']] =
      .ok 50 := by
  refine ⟨?_, ?_, ?_⟩
  · intro sequences s0 rest hseq h0 hlen
    subst hseq
    exact potcc_compute_ok s0 rest h0 hlen
  · intro s hs
    rw [potcc_compute_ok s [] hs (by unfold allSameLength; simp)]
    have hall : ∀ k ∈ List.range s.length,
        (fun j => decide ((firstDedup (columnAt [s] j)).length ≤ 1)) k = true := by
      intro k hk
      simp [columnAt, firstDedup, firstDedupAux]
    rw [List.countP_eq_length.mpr hall, List.length_range]
    have hL : (s.length : ℚ) ≠ 0 :=
      Nat.cast_ne_zero.mpr (fun hl => hs (List.length_eq_zero.mp hl))
    rw [div_self hL, one_mul]
  · simp [PercentageOfTotallyConservedColumns.compute, Score.compute, allSameLength,
      PercentageOfTotallyConservedColumns.evaluate, getColumn, pyGet, firstDedup,
      firstDedupAux, List.range_succ, List.foldlM_cons, List.foldlM_nil, List.mapM.loop,
      List.mapM, Except.map, ok_bind]
    norm_num

/-- C6 witness: a single-sequence alignment has every column conserved. -/
theorem totally_conserved_columns_spec_witness :
    PercentageOfTotallyConservedColumns.compute [['A']] = .ok 100 :=
  totally_conserved_columns_spec.2.1 ['A'] (by decide)

/-- C3: for every valid alignment, `Star.compute` sums over every column the
substitution values between the column's most frequent symbol and each symbol
of the column (the majority symbol included); the winner of a frequency tie is
the first symbol, in first-occurrence order, reaching the maximum count; with
a lookup where `d x x = M` and `d x y = 0` for `x ≠ y`, a fully conserved
alignment of `n` sequences and `L` columns scores exactly `n * M * L`. -/
theorem star_majority_column_scoring :
    (∀ (d : Char → Char → ℤ) (sequences : List (List Char)) (s0 : List Char)
       (rest : List (List Char)),
       sequences = s0 :: rest → allSameLength sequences = true →
       Star.compute d sequences =
         .ok (((List.range s0.length).map
           (fun k => starColumnScore d (columnAt sequences k))).sum)) ∧
    (∀ column : List Char, column ≠ [] →
       firstMax column ∈ column ∧
       (∀ c ∈ column, column.count c ≤ column.count (firstMax column)) ∧
       (∀ c ∈ column, column.count (firstMax column) ≤ column.count c →
         List.indexOf (firstMax column) column ≤ List.indexOf c column)) ∧
    (∀ (d : Char → Char → ℤ) (M : ℤ), (∀ x, d x x = M) → (∀ x y, x ≠ y → d x y = 0) →
       ∀ (n : ℕ) (s : List Char), 0 < n →
         Star.compute d (List.replicate n s) = .ok ((n : ℤ) * M * s.length)) := by
  refine ⟨?_, ?_, ?_⟩
  · intro d sequences s0 rest hseq hlen
    subst hseq
    exact star_compute_ok d s0 rest hlen
  · intro column hcol
    have harg : column.argmax (fun c => column.count c) = some (firstMax column) := by
      unfold firstMax
      cases h : column.argmax (fun c => column.count c) with
      | none => exact absurd (List.argmax_eq_none.mp h) hcol
      | some m => rfl
    have hmem : firstMax column ∈ column.argmax (fun c => column.count c) :=
      Option.mem_def.mpr harg
    exact ⟨List.argmax_mem hmem,
      fun c hc => List.le_of_mem_argmax hc hmem,
      fun c hc hle => List.index_of_argmax hmem hc hle⟩
  · intro d M h1 h2 n s hn
    obtain ⟨m, rfl⟩ : ∃ m, n = m + 1 := ⟨n - 1, by omega⟩
    have hrep : List.replicate (m + 1) s = s :: List.replicate m s := List.replicate_succ s m
    rw [hrep, star_compute_ok d s (List.replicate m s)
      (by rw [← hrep]; exact replicate_allSameLength (m + 1) s)]
    have hpt : ∀ k ∈ List.range s.length,
        starColumnScore d (columnAt (s :: List.replicate m s) k) =
          ((m + 1 : ℕ) : ℤ) * M := by
      intro k hk
      rw [show s :: List.replicate m s = List.replicate (m + 1) s from hrep.symm]
      unfold columnAt
      rw [List.map_replicate]
      exact starColumnScore_replicate d M (fun x => h1 x) (s.getD k '-') (m + 1) (by omega)
    rw [List.map_congr_left hpt, sum_map_range_const, nsmul_eq_mul]
    push_cast
    ring_nf

/-- C3 witness: the conserved case at `n = 3`, `L = 2`, `M = 5`
(`3 * 5 * 2 = 30`). -/
theorem star_majority_column_scoring_witness :
    Star.compute (fun x y => if x = y then (5 : ℤ) else 0) (List.replicate 3 ['A', 'A']) =
      .ok 30 := by
  have h := star_majority_column_scoring.2.2 (fun x y => if x = y then (5 : ℤ) else 0) 5
    (fun x => by simp) (fun x y hxy => by simp [hxy]) 3 ['A', 'A'] (by decide)
  rw [h]
  norm_num

/-- C4: for every valid alignment, `SumOfPairs.compute` sums over every column
the substitution value of each pair from `itertools.combinations(column, 2)`
— `C(n,2)` pairs per column of `n` symbols, no self-pairs, no pair repeated;
`["AAA","AAA","AAA"]` scores 45 whenever `d('A','A') = 5`, and a fully
conserved alignment of `n` sequences and `L` columns with `d x x = M` and
`d x y = 0` for `x ≠ y` scores `C(n,2) * M * L`. -/
theorem sum_of_pairs_column_scoring :
    (∀ (d : Char → Char → ℤ) (sequences : List (List Char)) (s0 : List Char)
       (rest : List (List Char)),
       sequences = s0 :: rest → allSameLength sequences = true →
       SumOfPairs.compute d sequences =
         .ok (((List.range s0.length).map
           (fun k => SumOfPairs.get_score_of_k_column d (columnAt sequences k))).sum)) ∧
    (∀ (l : List Char), (combinations2 l).length = l.length.choose 2) ∧
    (∀ d : Char → Char → ℤ, d 'A' 'A' = 5 →
       SumOfPairs.compute d [['A', 'A', 'A'], ['A', 'A', 'A'], ['A', 'A', 'A']] = .ok 45) ∧
    (∀ (d : Char → Char → ℤ) (M : ℤ), (∀ x, d x x = M) → (∀ x y, x ≠ y → d x y = 0) →
       ∀ (n : ℕ) (s : List Char), 0 < n →
         SumOfPairs.compute d (List.replicate n s) =
           .ok ((n.choose 2 : ℤ) * M * s.length)) := by
  refine ⟨?_, fun l => combinations2_length l, ?_, ?_⟩
  · intro d sequences s0 rest hseq hlen
    subst hseq
    exact sop_compute_ok d s0 rest hlen
  · intro d hd
    rw [sop_compute_ok d ['A', 'A', 'A'] [['A', 'A', 'A'], ['A', 'A', 'A']] (by decide)]
    simp [columnAt, List.range_succ, SumOfPairs.get_score_of_k_column, combinations2, hd]
  · intro d M h1 h2 n s hn
    obtain ⟨m, rfl⟩ : ∃ m, n = m + 1 := ⟨n - 1, by omega⟩
    have hrep : List.replicate (m + 1) s = s :: List.replicate m s := List.replicate_succ s m
    rw [hrep, sop_compute_ok d s (List.replicate m s)
      (by rw [← hrep]; exact replicate_allSameLength (m + 1) s)]
    have hpt : ∀ k ∈ List.range s.length,
        SumOfPairs.get_score_of_k_column d (columnAt (s :: List.replicate m s) k) =
          (((m + 1 : ℕ).choose 2 : ℕ) : ℤ) * M := by
      intro k hk
      rw [show s :: List.replicate m s = List.replicate (m + 1) s from hrep.symm]
      unfold columnAt
      rw [List.map_replicate]
      exact sop_column_replicate d (s.getD k '-') M (h1 _) (m + 1)
    rw [List.map_congr_left hpt, sum_map_range_const, nsmul_eq_mul]
    ring_nf

/-- C4 witness: the end-to-end example `["AAA","AAA","AAA"]` with
`d x y = if x = y then 5 else 0` scores 45. -/
theorem sum_of_pairs_column_scoring_witness :
    SumOfPairs.compute (fun x y => if x = y then (5 : ℤ) else 0)
      [['A', 'A', 'A'], ['A', 'A', 'A'], ['A', 'A', 'A']] = .ok 45 :=
  sum_of_pairs_column_scoring.2.2.1 (fun x y => if x = y then (5 : ℤ) else 0) (by simp)

/-- C7: `Strike`'s staging work (downloading structure files and writing the
connectivity and alignment files) happens only when neither staging file
exists: whenever the connectivity file or the alignment file is present,
`compute` skips the staging path, leaves the filesystem untouched and goes
straight to the external-tool invocation; and after a first `compute` from a
clean state, both staging files exist, so every subsequent `compute` skips the
download/staging path entirely and never regenerates the files. -/
theorem strike_staging_skip :
    (∀ (net : String → NetResult) (tool : StrikeFS → ℚ)
       (align_sequences sequences_id chains : List String) (fs : StrikeFS),
       fs.con ≠ none ∨ fs.aln ≠ none →
       Strike.compute net tool align_sequences sequences_id chains fs = .ok (tool fs, fs)) ∧
    (∀ (net : String → NetResult) (tool : StrikeFS → ℚ)
       (align_sequences sequences_id chains : List String) (fs : StrikeFS) (r : ℚ)
       (fs1 : StrikeFS),
       fs.con = none → fs.aln = none →
       Strike.compute net tool align_sequences sequences_id chains fs = .ok (r, fs1) →
       fs1.con ≠ none ∧ fs1.aln ≠ none ∧
       Strike.compute net tool align_sequences sequences_id chains fs1 =
         .ok (tool fs1, fs1)) := by
  have skip : ∀ (net : String → NetResult) (tool : StrikeFS → ℚ)
      (a b c : List String) (fs : StrikeFS), fs.con ≠ none ∨ fs.aln ≠ none →
      Strike.compute net tool a b c fs = .ok (tool fs, fs) := by
    intro net tool a b c fs h
    unfold Strike.compute Strike.evaluate
    rw [if_neg]
    intro hcond
    rw [Bool.and_eq_true, Option.isNone_iff_eq_none, Option.isNone_iff_eq_none] at hcond
    cases h with
    | inl hc => exact hc hcond.1
    | inr ha => exact ha hcond.2
  refine ⟨skip, ?_⟩
  intro net tool a b c fs r fs1 hcon haln hcomp
  unfold Strike.compute Strike.evaluate at hcomp
  rw [if_pos (by rw [hcon, haln]; rfl)] at hcomp
  cases hfold : (List.range a.length).foldlM (Strike.stageStep net a b c)
      { fs with con := some [], aln := some [] } with
  | error e =>
    rw [hfold] at hcomp
    cases hcomp
  | ok fs2 =>
    rw [hfold, ok_map] at hcomp
    have hpair : (tool fs2, fs2) = (r, fs1) := by injection hcomp
    have hfs : fs2 = fs1 := congrArg Prod.snd hpair
    have hP := foldlM_preserves (Strike.stageStep net a b c)
      (fun st => st.con ≠ none ∧ st.aln ≠ none)
      (fun st k st' hst => stageStep_files net a b c st k st' hst)
      (List.range a.length) _ fs2 ⟨by simp, by simp⟩ hfold
    rw [hfs] at hP
    exact ⟨hP.1, hP.2, skip net tool a b c fs1 (Or.inl hP.1)⟩

/-- C7 witness: a concrete first call from a clean filesystem stages both
files, and the second call on the resulting state skips straight to the tool
invocation. -/
theorem strike_staging_skip_witness :
    fsAfterFirst.con ≠ none ∧ fsAfterFirst.aln ≠ none ∧
    Strike.compute (fun _ => NetResult.ok) (fun _ => 3) ["AB"] ["1abc"] ["A"] fsAfterFirst =
      .ok (3, fsAfterFirst) :=
  strike_staging_skip.2 (fun _ => NetResult.ok) (fun _ => 3) ["AB"] ["1abc"] ["A"]
    fsClean 3 fsAfterFirst rfl rfl (by decide)
